import Mathlib

/-!
Verification development for the firewall warden (src/main.py).

The Python program is embedded shallowly:
- timestamps are integers counting microseconds since the Unix epoch, in UTC
  (Python datetime objects carry microsecond precision and all arithmetic in
  the program is on aware datetimes converted to UTC);
- the external Proxmox rule store is an oracle: `createOracle n` is the outcome
  of the n-th rule-creation attempt of the run (`some rule_index` on success,
  `none` when the call raises), `delOracle vmid rule_index` is the outcome of a
  deletion request;
- the GeoIP reader is `Option (String → Option String)`: `none` models the
  database file being absent, and a lookup result of `none` models both
  `AddressNotFoundError` and a null `iso_code`;
- Python dicts keyed by strings are association lists with the dict update and
  delete operations;
- the log file is a list of lines and the cursor position counts consumed
  lines (the byte-offset of the source is monotone in the number of consumed
  lines, which is all the resumption logic depends on).
-/

set_option maxRecDepth 10000

/-! ### Character and list-of-character helpers -/

/-- Value of an ASCII digit character. -/
def dval (c : Char) : Nat := c.toNat - 48

/-- Numeric value of a list of ASCII digit characters, most significant first. -/
def digitsVal (cs : List Char) : Nat :=
  cs.foldl (fun acc c => acc * 10 + dval c) 0

/-- All characters are ASCII digits and the list is nonempty; this is the
Python `str.isdigit` test restricted to ASCII, which is the shape of every
vmid field in the log. -/
def isDigits (cs : List Char) : Bool :=
  !cs.isEmpty && cs.all Char.isDigit

/-- ASCII hexadecimal digit test, as used by the Python IPv6 parser. -/
def isHexDigitCh (c : Char) : Bool :=
  c.isDigit || ('a' ≤ c && c ≤ 'f') || ('A' ≤ c && c ≤ 'F')

/-- Lower-case an ASCII character, as Python str.lower does on ASCII input. -/
def lowerCh (c : Char) : Char :=
  if 'A' ≤ c && c ≤ 'Z' then Char.ofNat (c.toNat + 32) else c

/-- Split a character list at every occurrence of a separator character,
keeping empty chunks; this is the Python str.split with an explicit
separator. -/
def splitCh (sep : Char) : List Char → List (List Char)
  | [] => [[]]
  | c :: rest =>
    if c = sep then [] :: splitCh sep rest
    else
      match splitCh sep rest with
      | g :: gs => (c :: g) :: gs
      | [] => [[c]]

/-- Tokenize on whitespace, dropping empty chunks; this is the Python
no-argument str.split used on every log line. -/
def wsTokensAux : List Char → List Char → List (List Char)
  | [], acc => if acc.isEmpty then [] else [acc.reverse]
  | c :: rest, acc =>
    if c.isWhitespace then
      if acc.isEmpty then wsTokensAux rest [] else acc.reverse :: wsTokensAux rest []
    else wsTokensAux rest (c :: acc)

def wsTokens (cs : List Char) : List (List Char) :=
  wsTokensAux cs []

/-! ### IP address validation

Model of the Python standard-library `ipaddress.ip_address` constructor, which
`parse_log_line` uses to sanitize the SRC field: first the IPv4 grammar is
tried, then the IPv6 grammar. -/

/-- One dotted-quad octet: nonempty, at most three ASCII digits, no leading
zero unless the octet is exactly "0", value at most 255. -/
def ipv4OctetValid (cs : List Char) : Bool :=
  !cs.isEmpty && cs.length ≤ 3 && cs.all Char.isDigit &&
    (cs.length == 1 || cs.headD '0' != '0') && digitsVal cs ≤ 255

/-- IPv4 literal: exactly four octets separated by dots. -/
def ipv4Valid (cs : List Char) : Bool :=
  let parts := splitCh '.' cs
  parts.length == 4 && parts.all ipv4OctetValid

/-- One IPv6 hextet: one to four hexadecimal digits. -/
def hextetValid (cs : List Char) : Bool :=
  !cs.isEmpty && cs.length ≤ 4 && cs.all isHexDigitCh

/-- Index of the first empty chunk, counting from a given offset. -/
def firstEmptyIdx : List (List Char) → Nat → Option Nat
  | [], _ => none
  | p :: rest, i => if p.isEmpty then some i else firstEmptyIdx rest (i + 1)

/-- Replace a trailing dotted-quad part by two hextet placeholders, as the
Python parser converts an embedded IPv4 suffix into two 16-bit groups
before the group-count checks; a malformed dotted suffix invalidates the
address. -/
def ipv6Expand (parts : List (List Char)) : Option (List (List Char)) :=
  match parts.getLast? with
  | none => none
  | some lastp =>
    if lastp.contains '.' then
      if ipv4Valid lastp then some (parts.dropLast ++ [['0'], ['0']]) else none
    else some parts

/-- Group structure of an IPv6 address after colon-splitting: at most one
run of empty groups standing for a single double-colon, leading or trailing
empty groups only next to it, eight groups in total accounted for, every
explicit group a valid hextet. This mirrors the checks of the Python
IPv6 integer parser step for step. -/
def ipv6Groups (parts : List (List Char)) : Bool :=
  let n := parts.length
  let interior := (parts.drop 1).dropLast
  match firstEmptyIdx interior 1 with
  | some i =>
    if 2 ≤ interior.countP (fun p => p.isEmpty) then false
    else
      let headEmpty := (parts.headD ['x']).isEmpty
      let lastEmpty := ((parts.getLast?).getD ['x']).isEmpty
      if headEmpty && i != 1 then false
      else if lastEmpty && n - i - 1 != 1 then false
      else
        let hi := if headEmpty then 0 else i
        let lo := if lastEmpty then 0 else n - i - 1
        if 7 < hi + lo then false
        else (parts.take hi).all hextetValid && (parts.drop (n - lo)).all hextetValid
  | none =>
    n == 8 && !(parts.headD ['x']).isEmpty && !((parts.getLast?).getD ['x']).isEmpty &&
      parts.all hextetValid

/-- Split off an optional zone index at the first percent sign, as the
Python string partition does; the scope must be nonempty when the separator
is present. -/
def splitScope (cs : List Char) : List Char × Bool :=
  match cs.findIdx? (fun c => c == '%') with
  | none => (cs, true)
  | some i => (cs.take i, !(cs.drop (i + 1)).isEmpty)

/-- IPv6 literal, including the optional zone index. -/
def ipv6Valid (cs : List Char) : Bool :=
  if cs.isEmpty then false
  else
    let (addr, scopeOk) := splitScope cs
    if !scopeOk then false
    else
      let parts0 := splitCh ':' addr
      if parts0.length < 3 then false
      else
        match ipv6Expand parts0 with
        | none => false
        | some parts => if 9 < parts.length then false else ipv6Groups parts

/-- The Python `ipaddress.ip_address` acceptance test. -/
def ipValid (cs : List Char) : Bool :=
  ipv4Valid cs || ipv6Valid cs

/-! ### Timestamp parsing

Model of `datetime.strptime(s, "%d/%b/%Y:%H:%M:%S %z")` followed by
`astimezone(pytz.utc)`, on the two whitespace-free tokens the program joins
with a single space. The result counts microseconds since the Unix epoch. -/

/-- Whether a year is a Gregorian leap year. -/
def isLeap (y : Nat) : Bool :=
  y % 4 == 0 && (y % 100 != 0 || y % 400 == 0)

/-- Number of days of a month, matching the validation done by the
datetime constructor. -/
def daysInMonth (y m : Nat) : Nat :=
  if m == 2 then (if isLeap y then 29 else 28)
  else if m == 4 || m == 6 || m == 9 || m == 11 then 30
  else 31

/-- Days from 1970-01-01 to the given proleptic Gregorian date. -/
def daysFromCivil (y m d : Nat) : Int :=
  let y2 : Int := if m ≤ 2 then (y : Int) - 1 else (y : Int)
  let era := y2 / 400
  let yoe := y2 - era * 400
  let mp : Int := ((m : Int) + 9) % 12
  let doy := (153 * mp + 2) / 5 + (d : Int) - 1
  let doe := yoe * 365 + yoe / 4 - yoe / 100 + doy
  era * 146097 + doe - 719468

/-- Month number of a lower-cased three-letter month abbreviation; the
strptime month directive matches these case-insensitively. -/
def monthIdx (cs : List Char) : Option Nat :=
  let low := cs.map lowerCh
  let names : List (List Char) :=
    [['j','a','n'], ['f','e','b'], ['m','a','r'], ['a','p','r'], ['m','a','y'],
     ['j','u','n'], ['j','u','l'], ['a','u','g'], ['s','e','p'], ['o','c','t'],
     ['n','o','v'], ['d','e','c']]
  match names.findIdx? (fun nm => nm == low) with
  | some i => some (i + 1)
  | none => none

/-- A numeric strptime field of one or two digits with an upper value bound;
lower bounds are checked by the caller. -/
def num2 (cs : List Char) (hidigit : Nat) : Option Nat :=
  if !cs.isEmpty && cs.length ≤ 2 && cs.all Char.isDigit && digitsVal cs ≤ hidigit then
    some (digitsVal cs)
  else none

/-- The strptime %z directive: the literal Z, or a sign, a two-digit hour,
an optional colon, a two-digit minute, then optionally an optional colon, a
two-digit second and an optional fraction of one to six digits. The result
is the UTC offset in microseconds; offsets of a day or more are rejected as
the timezone constructor raises on them. -/
def parseZone (cs : List Char) : Option Int :=
  if cs == ['Z'] then some 0
  else
    match cs with
    | s :: h1 :: h2 :: rest2 =>
      let sgn : Int := if s = '+' then 1 else if s = '-' then -1 else 0
      if sgn == 0 || !h1.isDigit || !h2.isDigit then none
      else
        let hh := dval h1 * 10 + dval h2
        let rest3 := if rest2.headD 'x' = ':' then rest2.tail else rest2
        match rest3 with
        | m1 :: m2 :: rest4 =>
          if !m1.isDigit || !m2.isDigit || 5 < dval m1 then none
          else
            let mm := dval m1 * 10 + dval m2
            let base : Int := ((hh * 3600 + mm * 60 : Nat) : Int) * 1000000
            match rest4 with
            | [] =>
              if base < 86400000000 then some (sgn * base) else none
            | _ =>
              let rest5 := if rest4.headD 'x' = ':' then rest4.tail else rest4
              match rest5 with
              | s1 :: s2 :: rest6 =>
                if !s1.isDigit || !s2.isDigit || 5 < dval s1 then none
                else
                  let ss := dval s1 * 10 + dval s2
                  let base2 : Int := base + ((ss : Nat) : Int) * 1000000
                  match rest6 with
                  | [] => if base2 < 86400000000 then some (sgn * base2) else none
                  | '.' :: frac =>
                    if !frac.isEmpty && frac.length ≤ 6 && frac.all Char.isDigit then
                      let fus : Int :=
                        ((digitsVal frac * 10 ^ (6 - frac.length) : Nat) : Int)
                      let tot := base2 + fus
                      if tot < 86400000000 then some (sgn * tot) else none
                    else none
                  | _ => none
              | _ => none
        | _ => none
    | _ => none

/-- Parse the date-and-time token (strptime fields %d/%b/%Y:%H:%M:%S); the
returned value is the local wall-clock reading in microseconds counted as if
it were UTC. Seconds of 60 and 61 match the directive but are rejected by
the datetime constructor, so the net bound is 59; likewise day-of-month is
validated against the month length and years below 1 are rejected. -/
def parseDatePart (cs : List Char) : Option Int :=
  match splitCh '/' cs with
  | [ds, ms, rest] =>
    match splitCh ':' rest with
    | [ys, hs, mins, ss] =>
      match num2 ds 31, monthIdx ms, num2 hs 23, num2 mins 59, num2 ss 59 with
      | some d, some m, some h, some mi, some s =>
        if 1 ≤ d && ys.length == 4 && ys.all Char.isDigit && 1 ≤ digitsVal ys &&
            d ≤ daysInMonth (digitsVal ys) m then
          some ((daysFromCivil (digitsVal ys) m d * 86400 +
            ((h * 3600 + mi * 60 + s : Nat) : Int)) * 1000000)
        else none
      | _, _, _, _, _ => none
    | _ => none
  | _ => none

/-- Parse the two timestamp tokens of a log line and convert to UTC by
subtracting the zone offset. -/
def parseTimestamp (p3 p4 : List Char) : Option Int :=
  match parseDatePart p3, parseZone p4 with
  | some loc, some off => some (loc - off)
  | _, _ => none

/-! ### The event parser (src/main.py, parse_log_line) -/

structure LogEvent where
  vmid : String
  src_ip : String
  timestamp : Int
  action : String
deriving DecidableEq

/-- First token carrying the source-address marker among the trailing
fields, with the marker stripped. -/
def findSrc : List (List Char) → Option (List Char)
  | [] => none
  | t :: rest =>
    if t.take 4 = ['S', 'R', 'C', '='] then some (t.drop 4) else findSrc rest

/-- Embedding of parse_log_line: tokenize on whitespace; require at least
ten fields with the policy literal in field six; the vmid field must be
numeric; the verdict field must be one of the two recognized tokens; fields
four and five must parse under the fixed timestamp format; a SRC= field must
exist among the trailing fields and carry a valid IP literal. Any violation
yields the no-event outcome; the function is total, so it never raises. -/
def parse_log_line (line : String) : Option LogEvent :=
  let parts := wsTokens line.data
  if parts.length < 10 then none
  else if String.mk (parts.getD 5 []) ≠ "policy" then none
  else if !isDigits (parts.getD 0 []) then none
  else
    let action := String.mk (parts.getD 6 [])
    if action ≠ "DROP:" ∧ action ≠ "ACCEPT:" then none
    else
      match parseTimestamp (parts.getD 3 []) (parts.getD 4 []) with
      | none => none
      | some ts =>
        match findSrc (parts.drop 7) with
        | none => none
        | some src =>
          if ipValid src then
            some ⟨String.mk (parts.getD 0 []), String.mk src, ts, action⟩
          else none

/-- The field contract of the parser as a flat conjunction, following the
wording of the specification: at least ten whitespace fields, policy literal
in field six, numeric vmid in field one, a recognized verdict token in field
seven, fields four and five parse under the fixed timestamp format, and the
first SRC=-marked trailing field carries a valid IPv4 or IPv6 literal. -/
def lineValid (line : String) : Bool :=
  let parts := wsTokens line.data
  decide (10 ≤ parts.length) && (String.mk (parts.getD 5 []) == "policy") &&
    isDigits (parts.getD 0 []) &&
    ((String.mk (parts.getD 6 []) == "DROP:") || (String.mk (parts.getD 6 []) == "ACCEPT:")) &&
    (parseTimestamp (parts.getD 3 []) (parts.getD 4 [])).isSome &&
    ((findSrc (parts.drop 7)).map ipValid).getD false

/-! ### The geo evaluator (src/main.py, get_country) -/

/-- Embedding of get_country: with no reader loaded the lookup yields the
unknown outcome; otherwise the reader is consulted, and a failed lookup
(address not found, or a record without an iso code) also yields unknown. -/
def get_country (reader : Option (String → Option String)) (ip : String) : Option String :=
  match reader with
  | none => none
  | some f => f ip

/-! ### Data model of the run (src/main.py, main) -/

structure BlockRecord where
  rule_index : Nat
  expiration : Option Int
  unique_id : String
  permanent : Bool
deriving DecidableEq

structure Rule where
  enable : Nat
  type : String
  action : String
  source : String
  comment : String
deriving DecidableEq

inductive ApiCall where
  | create (vmid : String) (rule : Rule)
  | delete (vmid : String) (rule_index : Nat)
deriving DecidableEq

/-- One tracking record as appended to the audit ledger; the expiration
field holds the instant for a temporary block and `none` stands for the
literal permanent label; previous_blocks is only present on drop-rate
entries. -/
structure AuditEntry where
  timestamp : Int
  vmid : String
  src_ip : String
  unique_id : String
  rule_index : Nat
  expiration : Option Int
  reason : String
  previous_blocks : Option Nat
deriving DecidableEq

/-- External collaborators and the clock, fixed for one run. -/
structure Ctx where
  allowed : List String
  geo : Option (String → Option String)
  createOracle : Nat → Option Nat
  delOracle : String → Nat → Bool
  uuidGen : Nat → String
  now : Int

/-- Mutable state threaded through the per-line loop, together with the
log of rule-store calls issued so far. -/
structure RunSt where
  drops : List (String × List Int)
  blocked : List (String × BlockRecord)
  tracking : List AuditEntry
  calls : List ApiCall
  createCount : Nat
deriving DecidableEq

/-! ### Association-list operations standing for Python dict operations -/

def alookup {α : Type} : List (String × α) → String → Option α
  | [], _ => none
  | (k, v) :: rest, key => if k = key then some v else alookup rest key

/-- Dict update: replace in place when the key exists, append otherwise. -/
def alinsert {α : Type} (l : List (String × α)) (key : String) (v : α) :
    List (String × α) :=
  if (alookup l key).isSome then l.map (fun p => if p.1 = key then (key, v) else p)
  else l ++ [(key, v)]

/-- Dict deletion by key. -/
def alerase {α : Type} (l : List (String × α)) (key : String) : List (String × α) :=
  l.filter (fun p => !(p.1 == key))

/-! ### The per-event state machine -/

/-- Bounded append to a DropWindow: a deque of capacity five evicts the
oldest element on overflow. -/
def pushWindow (w : List Int) (t : Int) : List Int :=
  let w2 := w ++ [t]
  w2.drop (w2.length - 5)

/-- The TrackKey of an event, as the program formats it. -/
def evKey (ev : LogEvent) : String := ev.vmid ++ ":" ++ ev.src_ip

/-- Whether the geo check fires for a source address: a resolved, truthy
country code absent from the allow-set. -/
def geoDisallowed (ctx : Ctx) (ip : String) : Bool :=
  match get_country ctx.geo ip with
  | some c => !(c == "") && !(ctx.allowed.contains c)
  | none => false

/-- Whether the key holds a permanent BlockRecord. -/
def isPermBlocked (blocked : List (String × BlockRecord)) (key : String) : Bool :=
  match alookup blocked key with
  | some b => b.permanent
  | none => false

def geoComment (now : Int) (uid : String) : String :=
  "Permanent geo-block at " ++ toString now ++ " - ID: " ++ uid

def tempComment (now : Int) (uid : String) : String :=
  "Temp block at " ++ toString now ++ " - ID: " ++ uid

def mkRule (src comment : String) : Rule :=
  { enable := 1, type := "in", action := "DROP", source := src, comment := comment }

/-- Escalation expiration from the count of prior ledger entries: at least
seven means permanent, at least five means seven days, otherwise one
hour. -/
def tierExpiration (prev : Nat) (now : Int) : Option Int :=
  if 7 ≤ prev then none
  else if 5 ≤ prev then some (now + 604800000000)
  else some (now + 3600000000)

/-- Firing condition of the drop-rate detector on the window value after
the append: the deque has reached its capacity of five and the span from
oldest to newest retained sample is at most five minutes. -/
def fireWindow (w : List Int) : Bool :=
  w.length == 5 && decide (w.getLastD 0 - w.headD 0 ≤ 300000000)

/-- Embedding of the body of the per-line loop of main for one parsed
event: the geo branch fires when the country is disallowed and the key has
no permanent block; otherwise a DROP verdict on a key without a permanent
block is appended to the window of the key, and a full window spanning at
most five minutes fires the drop-rate block with the escalated tier. Every
rule-store attempt consumes one entry of the create oracle; only a
successful attempt records a BlockRecord and appends a tracking entry. -/
def processEvent (ctx : Ctx) (counts : String → Nat) (st : RunSt) (ev : LogEvent) :
    RunSt :=
  let key := evKey ev
  if geoDisallowed ctx ev.src_ip then
    if isPermBlocked st.blocked key then st
    else
      let uid := ctx.uuidGen st.createCount
      let call := ApiCall.create ev.vmid (mkRule ev.src_ip (geoComment ctx.now uid))
      match ctx.createOracle st.createCount with
      | some ridx =>
        { st with
          blocked := alinsert st.blocked key ⟨ridx, none, uid, true⟩
          tracking := st.tracking ++
            [⟨ctx.now, ev.vmid, ev.src_ip, uid, ridx, none, "disallowed country", none⟩]
          calls := st.calls ++ [call]
          createCount := st.createCount + 1 }
      | none =>
        { st with calls := st.calls ++ [call], createCount := st.createCount + 1 }
  else if ev.action == "DROP:" && !isPermBlocked st.blocked key then
    let w2 := pushWindow ((alookup st.drops key).getD []) ev.timestamp
    let st1 := { st with drops := alinsert st.drops key w2 }
    if fireWindow w2 then
      let uid := ctx.uuidGen st1.createCount
      let call := ApiCall.create ev.vmid (mkRule ev.src_ip (tempComment ctx.now uid))
      match ctx.createOracle st1.createCount with
      | some ridx =>
        let prev := counts ev.src_ip
        let expiration := tierExpiration prev ctx.now
        { st1 with
          blocked := alinsert st1.blocked key ⟨ridx, expiration, uid, expiration.isNone⟩
          tracking := st1.tracking ++
            [⟨ctx.now, ev.vmid, ev.src_ip, uid, ridx, expiration, "multiple drops", some prev⟩]
          calls := st1.calls ++ [call]
          createCount := st1.createCount + 1 }
      | none =>
        { st1 with calls := st1.calls ++ [call], createCount := st1.createCount + 1 }
    else st1
  else st

/-! ### The end-of-run sweep -/

/-- Sweep condition of main: a non-permanent record with a truthy
expiration strictly in the past. -/
def shouldSweep (b : BlockRecord) (now : Int) : Bool :=
  !b.permanent &&
    (match b.expiration with
     | some e => decide (e < now)
     | none => false)

/-- The vmid from a TrackKey, as key.split(sep)[0] computes it. -/
def keyVmid (k : String) : String :=
  String.mk (k.data.takeWhile (fun c => !(c == ':')))

/-- Embedding of the sweep loop of main: iterate over a snapshot of the
blocked dict; every qualifying record produces one delete request; only on
success are the record and the DropWindow of the key discarded. -/
def sweepLoop (o : String → Nat → Bool) (now : Int) :
    List (String × BlockRecord) →
      List (String × BlockRecord) × List (String × List Int) × List ApiCall →
      List (String × BlockRecord) × List (String × List Int) × List ApiCall
  | [], acc => acc
  | (k, b) :: rest, (bl, dr, cs) =>
    if shouldSweep b now then
      let c := ApiCall.delete (keyVmid k) b.rule_index
      if o (keyVmid k) b.rule_index then
        sweepLoop o now rest (alerase bl k, alerase dr k, cs ++ [c])
      else sweepLoop o now rest (bl, dr, cs ++ [c])
    else sweepLoop o now rest (bl, dr, cs)

def sweep (o : String → Nat → Bool) (now : Int)
    (bl : List (String × BlockRecord)) (dr : List (String × List Int)) :
    List (String × BlockRecord) × List (String × List Int) × List ApiCall :=
  sweepLoop o now bl (bl, dr, [])

/-! ### Snapshot loading and saving -/

/-- Durable snapshot contents as main persists them at run end. -/
structure Snapshot where
  inode : Option Nat
  position : Nat
  drops : List (String × List Int)
  blocked : List (String × BlockRecord)
deriving DecidableEq

/-- A BlockRecord as found in a snapshot on disk, where the permanent flag
may be absent. -/
structure RawBlock where
  rule_index : Nat
  expiration : Option Int
  unique_id : String
  permanent : Option Bool
deriving DecidableEq

structure RawSnapshot where
  inode : Option Nat
  position : Nat
  drops : List (String × List Int)
  blocked : List (String × RawBlock)
deriving DecidableEq

/-- Reloading a persisted window rebuilds a deque of capacity five, which
keeps the last five elements of a longer list. -/
def loadWindow (w : List Int) : List Int := w.drop (w.length - 5)

/-- Reloading a persisted record defaults an absent permanent flag to
false, as the setdefault patch of main does. -/
def loadRecord (r : RawBlock) : BlockRecord :=
  ⟨r.rule_index, r.expiration, r.unique_id, r.permanent.getD false⟩

def loadSnapshot (raw : RawSnapshot) : Snapshot :=
  ⟨raw.inode, raw.position,
   raw.drops.map (fun p => (p.1, loadWindow p.2)),
   raw.blocked.map (fun p => (p.1, loadRecord p.2))⟩

def saveRecord (b : BlockRecord) : RawBlock :=
  ⟨b.rule_index, b.expiration, b.unique_id, some b.permanent⟩

/-- Serializing a snapshot writes every field explicitly, the permanent
flag included; timestamps round-trip losslessly through their textual
form. -/
def saveSnapshot (s : Snapshot) : RawSnapshot :=
  ⟨s.inode, s.position, s.drops, s.blocked.map (fun p => (p.1, saveRecord p.2))⟩

/-- The default state main builds when no state file exists. -/
def defaultSnapshot : RawSnapshot :=
  ⟨none, 0, [], []⟩

/-- Loading the state file: an absent file yields the default state, but a
present file that fails to parse raises out of main, because the json load
is not guarded there. The outer option is file presence, the inner option
is parse success. -/
def loadState (input : Option (Option RawSnapshot)) : Except Unit Snapshot :=
  match input with
  | none => .ok (loadSnapshot defaultSnapshot)
  | some none => .error ()
  | some (some raw) => .ok (loadSnapshot raw)

/-- Loading the tracking file: both an absent file and a file that fails to
parse degrade to the empty ledger, because the json decode error is caught
there. -/
def loadTracking (input : Option (Option (List AuditEntry))) : List AuditEntry :=
  match input with
  | none => []
  | some none => []
  | some (some l) => l

/-! ### A whole run -/

/-- Prior-block count per source address, as the jq group-by query computes
it over the tracking file read at the start of the run. -/
def ledgerCount (tracking : List AuditEntry) (ip : String) : Nat :=
  (tracking.filter (fun a => a.src_ip == ip)).length

structure RunOut where
  snapshot : Snapshot
  tracking : List AuditEntry
  calls : List ApiCall
deriving DecidableEq

/-- The per-line loop over the newly available lines; lines that do not
parse are skipped silently. -/
def runOnLines (ctx : Ctx) (counts : String → Nat) (st : RunSt) (lines : List String) :
    RunSt :=
  lines.foldl
    (fun s l =>
      match parse_log_line l with
      | some ev => processEvent ctx counts s ev
      | none => s)
    st

/-- Embedding of one invocation of main after the state and tracking loads:
resume from the stored position when the file identity matches and from the
start otherwise, process every newly available line, sweep expired
temporary blocks, and emit the snapshot that is persisted together with the
rewritten ledger and the rule-store calls issued, in order. -/
def run (ctx : Ctx) (raw : RawSnapshot) (tracking0 : List AuditEntry)
    (fileInode : Nat) (file : List String) : RunOut :=
  let snap := loadSnapshot raw
  let start := if snap.inode = some fileInode then snap.position else 0
  let lines := file.drop start
  let finalPos := if lines.isEmpty then start else file.length
  let st1 := runOnLines ctx (ledgerCount tracking0)
    ⟨snap.drops, snap.blocked, tracking0, [], 0⟩ lines
  let res := sweep ctx.delOracle ctx.now st1.blocked st1.drops
  ⟨⟨some fileInode, finalPos, res.2.1, res.1⟩, st1.tracking, st1.calls ++ res.2.2⟩

/-! ### Derived notions used by the statements below -/

/-- Whether the sweep removes the entry: the sweep condition holds and the
deletion request succeeds. -/
def removedB (o : String → Nat → Bool) (now : Int) (p : String × BlockRecord) : Bool :=
  shouldSweep p.2 now && o (keyVmid p.1) p.2.rule_index

/-- The delete request a blocked entry gives rise to during the sweep, if
any. -/
def sweepCallOf (now : Int) (p : String × BlockRecord) : Option ApiCall :=
  if shouldSweep p.2 now then some (ApiCall.delete (keyVmid p.1) p.2.rule_index)
  else none

/-- The data-model invariant of BlockRecords: a null expiration exactly for
a permanent record. -/
def BlockedOK (bl : List (String × BlockRecord)) : Prop :=
  ∀ p ∈ bl, (p.2.expiration = none ↔ p.2.permanent = true)

/-- All retained windows are within the deque capacity. -/
def DropsBounded (dr : List (String × List Int)) : Prop :=
  ∀ p ∈ dr, p.2.length ≤ 5

/-! ### Concrete instances used by witnesses and counterexamples -/

/-- A context with no geo database, an always-succeeding rule store and a
clock reading of zero. -/
def ctxNoGeo : Ctx := ⟨[], none, fun n => some (100 + n), fun _ _ => true, fun _ => "u", 0⟩

/-- A context whose geo database resolves every address to a country
outside the empty allow-set. -/
def ctxRuGeo : Ctx :=
  ⟨[], some (fun _ => some "RU"), fun n => some (100 + n), fun _ _ => true, fun _ => "u", 0⟩

/-- A context whose rule store fails every call, with the clock at one
second past the epoch. -/
def ctxDelFail : Ctx := ⟨[], none, fun n => some (100 + n), fun _ _ => false, fun _ => "u", 1000000⟩

def stEmpty : RunSt := ⟨[], [], [], [], 0⟩

/-- A state holding an active, unexpired temporary block for the key of
`evDropA` (its expiration, one second past the epoch, is after the clock
reading of `ctxNoGeo` and `ctxRuGeo`). -/
def stTempBlocked : RunSt := ⟨[], [("100:1.2.3.4", ⟨7, some 1000000, "u", false⟩)], [], [], 0⟩

/-- A state holding a permanent block for the key of `evDropA`. -/
def stPermBlocked : RunSt := ⟨[], [("100:1.2.3.4", ⟨7, none, "u", true⟩)], [], [], 0⟩

def evDropA : LogEvent := ⟨"100", "1.2.3.4", 5, "DROP:"⟩

/-- A fifth DROP one minute after the newest of `stFourDrops`, landing a
full window spanning four minutes. -/
def evDropB : LogEvent := ⟨"100", "1.2.3.4", 240000000, "DROP:"⟩

def evAcceptA : LogEvent := ⟨"100", "1.2.3.4", 5, "ACCEPT:"⟩

/-- A state whose window for the key of `evDropB` holds four DROP samples
one minute apart. -/
def stFourDrops : RunSt :=
  ⟨[("100:1.2.3.4", [0, 60000000, 120000000, 180000000])], [], [], [], 0⟩

/-- The DROP test vector of the repository test-suite. -/
def testDropLine : String :=
  "102 6 tap102i0-IN 22/Feb/2025:12:43:32 -0600 policy DROP: IN=fwbr102i0 OUT=fwbr102i0 PHYSIN=fwln102i0 PHYSOUT=tap102i0 MAC=bc:24:11:ce:4e:11:28:74:f5:3a:22:71:08:00 SRC=45.142.193.117 DST=75.37.49.10 LEN=40 TOS=0x00 PREC=0x00 TTL=236 ID=3448 PROTO=TCP SPT=49743 DPT=8443 SEQ=1839537289 ACK=0 WINDOW=1024 SYN"

/-- A minimal well-formed DROP line for source 9.9.9.9 with a parametric
vmid and second field. -/
def c3Line (vm sec : String) : String :=
  vm ++ " x x 22/Feb/2025:12:00:" ++ sec ++ " +0000 policy DROP: SRC=9.9.9.9 x x"

/-- A ledger holding six prior entries for source 9.9.9.9. -/
def c3Ledger : List AuditEntry :=
  List.replicate 6 ⟨0, "50", "9.9.9.9", "t", 1, some 0, "multiple drops", some 0⟩

/-- Ten DROP lines for 9.9.9.9 within five minutes: five against vmid 100,
then five against vmid 200, so the drop-rate detector fires twice in one
run. -/
def c3File : List String :=
  (["01", "02", "03", "04", "05"].map (c3Line "100")) ++
    (["06", "07", "08", "09", "10"].map (c3Line "200"))

def c3Out : RunOut := run ctxNoGeo ⟨none, 0, [], []⟩ c3Ledger 77 c3File

/-- A snapshot holding one expired temporary block (expiration at the
epoch, before the clock of `ctxDelFail`). -/
def c10Raw : RawSnapshot := ⟨some 7, 0, [], [("100:1.2.3.4", ⟨1, some 0, "u", some false⟩)]⟩

def c10Out1 : RunOut := run ctxDelFail c10Raw [] 7 []

def c10Out2 : RunOut :=
  run ctxDelFail (saveSnapshot c10Out1.snapshot) c10Out1.tracking 7 []

/-- A stored record with a null expiration and no permanent flag, the
shape an older snapshot without the flag leaves behind. -/
def c9Raw : RawSnapshot := ⟨some 7, 0, [], [("100:1.2.3.4", ⟨1, none, "u", none⟩)]⟩

/-- A well-formed stored snapshot holding one explicit permanent record. -/
def c9RawOK : RawSnapshot := ⟨some 7, 0, [], [("100:1.2.3.4", ⟨1, none, "u", some true⟩)]⟩

/-! ## Helper lemmas about the association-list operations -/

theorem alookup_map_replace {α : Type} (l : List (String × α)) (k : String) (v : α)
    (h : (alookup l k).isSome = true) :
    alookup (l.map (fun p => if p.1 = k then (k, v) else p)) k = some v := by
  induction l with
  | nil => simp [alookup] at h
  | cons p rest ih =>
    by_cases hp : p.1 = k
    · rw [List.map_cons, if_pos hp]
      simp [alookup]
    · rw [List.map_cons, if_neg hp]
      simp only [alookup, if_neg hp]
      exact ih (by simpa [alookup, if_neg hp] using h)

theorem alookup_append_single {α : Type} (l : List (String × α)) (k : String) (v : α)
    (h : alookup l k = none) :
    alookup (l ++ [(k, v)]) k = some v := by
  induction l with
  | nil => simp [alookup]
  | cons p rest ih =>
    by_cases hp : p.1 = k
    · simp [alookup, hp] at h
    · simp only [List.cons_append, alookup, if_neg hp]
      exact ih (by simpa [alookup, if_neg hp] using h)

theorem alookup_alinsert_self {α : Type} (l : List (String × α)) (k : String) (v : α) :
    alookup (alinsert l k v) k = some v := by
  unfold alinsert
  split
  · next hs => exact alookup_map_replace l k v hs
  · next hs => exact alookup_append_single l k v (Option.not_isSome_iff_eq_none.mp hs)

theorem mem_alinsert {α : Type} (l : List (String × α)) (k : String) (v : α)
    (q : String × α) (hq : q ∈ alinsert l k v) : q = (k, v) ∨ q ∈ l := by
  unfold alinsert at hq
  split at hq
  · obtain ⟨p, hp, hpq⟩ := List.mem_map.mp hq
    by_cases hk : p.1 = k
    · rw [if_pos hk] at hpq
      exact Or.inl hpq.symm
    · rw [if_neg hk] at hpq
      exact Or.inr (hpq ▸ hp)
  · rcases List.mem_append.mp hq with h | h
    · exact Or.inr h
    · exact Or.inl (by simpa using h)

theorem alookup_filter_of_false {α : Type} (l : List (String × α)) (k : String)
    (f : String × α → Bool) (h : ∀ v, f (k, v) = false) :
    alookup (l.filter f) k = none := by
  induction l with
  | nil => simp [alookup]
  | cons p rest ih =>
    by_cases hf : f p = true
    · rw [List.filter_cons_of_pos hf]
      by_cases hp : p.1 = k
      · exact absurd (by rw [← hp] at h; simpa using h p.2) (by simp [hf])
      · simpa [alookup, if_neg hp] using ih
    · rw [List.filter_cons_of_neg hf]
      exact ih

theorem alookup_filter_of_true {α : Type} (l : List (String × α)) (k : String)
    (f : String × α → Bool) (h : ∀ v, f (k, v) = true) :
    alookup (l.filter f) k = alookup l k := by
  induction l with
  | nil => simp
  | cons p rest ih =>
    by_cases hp : p.1 = k
    · have hf : f p = true := by
        have := h p.2
        rw [← hp] at this
        simpa using this
      rw [List.filter_cons_of_pos hf]
      simp [alookup, hp, ih]
    · by_cases hf : f p = true
      · rw [List.filter_cons_of_pos hf]
        simp [alookup, if_neg hp, ih]
      · rw [List.filter_cons_of_neg hf]
        simp [alookup, if_neg hp, ih]

theorem any_eq_of_not_mem_keys {α : Type} (l : List (String × α)) (k : String)
    (f : String × α → Bool) (h : k ∉ l.map Prod.fst) :
    l.any (fun p => p.1 == k && f p) = false := by
  induction l with
  | nil => rfl
  | cons p rest ih =>
    simp only [List.map_cons, List.mem_cons] at h
    push_neg at h
    simp only [List.any_cons, Bool.or_eq_false_iff]
    constructor
    · have : (p.1 == k) = false := by
        simpa using fun hc => h.1 hc.symm
      simp [this]
    · exact ih h.2

theorem any_eq_of_nodup {α : Type} (l : List (String × α)) (k : String) (b : α)
    (f : String × α → Bool) (hnd : (l.map Prod.fst).Nodup) (hk : alookup l k = some b) :
    l.any (fun p => p.1 == k && f p) = f (k, b) := by
  induction l with
  | nil => simp [alookup] at hk
  | cons p rest ih =>
    rw [List.map_cons, List.nodup_cons] at hnd
    by_cases hp : p.1 = k
    · have hb : p.2 = b := by simpa [alookup, hp] using hk
      have hrest : rest.any (fun q => q.1 == k && f q) = false :=
        any_eq_of_not_mem_keys rest k f (hp ▸ hnd.1)
      have hpkb : p = (k, b) := Prod.ext hp hb
      simp [List.any_cons, hrest, hpkb]
    · have hk2 : alookup rest k = some b := by simpa [alookup, if_neg hp] using hk
      have : (p.1 == k) = false := by simpa using hp
      simp [List.any_cons, this, ih hnd.2 hk2]

/-! ## Helper lemmas about the sweep loop -/

theorem sweepLoop_calls (o : String → Nat → Bool) (now : Int)
    (rest : List (String × BlockRecord)) (bl : List (String × BlockRecord))
    (dr : List (String × List Int)) (cs : List ApiCall) :
    (sweepLoop o now rest (bl, dr, cs)).2.2 = cs ++ rest.filterMap (sweepCallOf now) := by
  induction rest generalizing bl dr cs with
  | nil => simp [sweepLoop]
  | cons p rest ih =>
    obtain ⟨k, b⟩ := p
    by_cases hs : shouldSweep b now = true
    · by_cases ho : o (keyVmid k) b.rule_index = true
      · rw [show sweepLoop o now ((k, b) :: rest) (bl, dr, cs) =
            sweepLoop o now rest (alerase bl k, alerase dr k,
              cs ++ [ApiCall.delete (keyVmid k) b.rule_index]) by
              simp [sweepLoop, hs, ho]]
        rw [ih]
        simp [sweepCallOf, hs]
      · rw [show sweepLoop o now ((k, b) :: rest) (bl, dr, cs) =
            sweepLoop o now rest (bl, dr, cs ++ [ApiCall.delete (keyVmid k) b.rule_index]) by
              simp [sweepLoop, hs, ho]]
        rw [ih]
        simp [sweepCallOf, hs]
    · rw [show sweepLoop o now ((k, b) :: rest) (bl, dr, cs) =
          sweepLoop o now rest (bl, dr, cs) by simp [sweepLoop, hs]]
      rw [ih]
      simp [sweepCallOf, hs]

theorem sweepLoop_blocked (o : String → Nat → Bool) (now : Int)
    (rest : List (String × BlockRecord)) (bl : List (String × BlockRecord))
    (dr : List (String × List Int)) (cs : List ApiCall) :
    (sweepLoop o now rest (bl, dr, cs)).1 =
      bl.filter (fun q => !(rest.any (fun p => p.1 == q.1 && removedB o now p))) := by
  induction rest generalizing bl dr cs with
  | nil => simp [sweepLoop]
  | cons p rest ih =>
    obtain ⟨k, b⟩ := p
    by_cases hs : shouldSweep b now = true
    · by_cases ho : o (keyVmid k) b.rule_index = true
      · rw [show sweepLoop o now ((k, b) :: rest) (bl, dr, cs) =
            sweepLoop o now rest (alerase bl k, alerase dr k,
              cs ++ [ApiCall.delete (keyVmid k) b.rule_index]) by
              simp [sweepLoop, hs, ho]]
        rw [ih]
        unfold alerase
        rw [List.filter_filter]
        apply List.filter_congr
        intro q _
        by_cases hqk : k = q.1
        · subst hqk
          simp [removedB, hs, ho]
        · rw [List.any_cons]
          have h1 : (k == q.1) = false := beq_false_of_ne hqk
          have h2 : (q.1 == k) = false := beq_false_of_ne (fun hc => hqk hc.symm)
          simp [h1, h2]
      · rw [show sweepLoop o now ((k, b) :: rest) (bl, dr, cs) =
            sweepLoop o now rest (bl, dr, cs ++ [ApiCall.delete (keyVmid k) b.rule_index]) by
              simp [sweepLoop, hs, ho]]
        rw [ih]
        apply List.filter_congr
        intro q _
        rw [List.any_cons]
        have hrm : removedB o now (k, b) = false := by
          simp [removedB, hs, ho]
        simp [hrm]
    · rw [show sweepLoop o now ((k, b) :: rest) (bl, dr, cs) =
          sweepLoop o now rest (bl, dr, cs) by simp [sweepLoop, hs]]
      rw [ih]
      apply List.filter_congr
      intro q _
      rw [List.any_cons]
      have hrm : removedB o now (k, b) = false := by
        simp [removedB, hs]
      simp [hrm]

theorem sweepLoop_drops (o : String → Nat → Bool) (now : Int)
    (rest : List (String × BlockRecord)) (bl : List (String × BlockRecord))
    (dr : List (String × List Int)) (cs : List ApiCall) :
    (sweepLoop o now rest (bl, dr, cs)).2.1 =
      dr.filter (fun q => !(rest.any (fun p => p.1 == q.1 && removedB o now p))) := by
  induction rest generalizing bl dr cs with
  | nil => simp [sweepLoop]
  | cons p rest ih =>
    obtain ⟨k, b⟩ := p
    by_cases hs : shouldSweep b now = true
    · by_cases ho : o (keyVmid k) b.rule_index = true
      · rw [show sweepLoop o now ((k, b) :: rest) (bl, dr, cs) =
            sweepLoop o now rest (alerase bl k, alerase dr k,
              cs ++ [ApiCall.delete (keyVmid k) b.rule_index]) by
              simp [sweepLoop, hs, ho]]
        rw [ih]
        unfold alerase
        rw [List.filter_filter]
        apply List.filter_congr
        intro q _
        by_cases hqk : k = q.1
        · subst hqk
          simp [removedB, hs, ho]
        · rw [List.any_cons]
          have h1 : (k == q.1) = false := beq_false_of_ne hqk
          have h2 : (q.1 == k) = false := beq_false_of_ne (fun hc => hqk hc.symm)
          simp [h1, h2]
      · rw [show sweepLoop o now ((k, b) :: rest) (bl, dr, cs) =
            sweepLoop o now rest (bl, dr, cs ++ [ApiCall.delete (keyVmid k) b.rule_index]) by
              simp [sweepLoop, hs, ho]]
        rw [ih]
        apply List.filter_congr
        intro q _
        rw [List.any_cons]
        have hrm : removedB o now (k, b) = false := by
          simp [removedB, hs, ho]
        simp [hrm]
    · rw [show sweepLoop o now ((k, b) :: rest) (bl, dr, cs) =
          sweepLoop o now rest (bl, dr, cs) by simp [sweepLoop, hs]]
      rw [ih]
      apply List.filter_congr
      intro q _
      rw [List.any_cons]
      have hrm : removedB o now (k, b) = false := by
        simp [removedB, hs]
      simp [hrm]

theorem sweepLoop_noop (o : String → Nat → Bool) (now : Int)
    (rest : List (String × BlockRecord))
    (acc : List (String × BlockRecord) × List (String × List Int) × List ApiCall)
    (h : ∀ p ∈ rest, shouldSweep p.2 now = false) :
    sweepLoop o now rest acc = acc := by
  induction rest generalizing acc with
  | nil => rfl
  | cons p rest ih =>
    obtain ⟨k, b⟩ := p
    obtain ⟨bl, dr, cs⟩ := acc
    have hs : shouldSweep b now = false := h (k, b) (List.mem_cons_self _ _)
    rw [show sweepLoop o now ((k, b) :: rest) (bl, dr, cs) =
        sweepLoop o now rest (bl, dr, cs) by simp [sweepLoop, hs]]
    exact ih _ (fun q hq => h q (List.mem_cons_of_mem _ hq))

/-! ## Claim C2: sweep correctness -/

/-- C2: at end of run, every non-permanent BlockRecord whose expiration is
strictly before the current time gives rise to exactly one delete request
(the call list of the sweep is exactly one delete per qualifying record, in
order, and nothing else); only a successful request removes the record and
the DropWindow of its key; a failed request leaves the record intact; a
permanent record contributes no delete request and survives the sweep. -/
theorem c2_sweep_correct (o : String → Nat → Bool) (now : Int)
    (bl : List (String × BlockRecord)) (dr : List (String × List Int))
    (k : String) (b : BlockRecord)
    (hnd : (bl.map Prod.fst).Nodup) (hk : alookup bl k = some b) :
    (sweep o now bl dr).2.2 = bl.filterMap (sweepCallOf now) ∧
    (b.permanent = true → sweepCallOf now (k, b) = none) ∧
    (shouldSweep b now = true →
      (o (keyVmid k) b.rule_index = true →
        alookup (sweep o now bl dr).1 k = none ∧
        alookup (sweep o now bl dr).2.1 k = none) ∧
      (o (keyVmid k) b.rule_index = false →
        alookup (sweep o now bl dr).1 k = some b)) ∧
    (shouldSweep b now = false → alookup (sweep o now bl dr).1 k = some b) := by
  unfold sweep
  have hbl := sweepLoop_blocked o now bl bl dr []
  have hdr := sweepLoop_drops o now bl bl dr []
  have hany := fun f => any_eq_of_nodup bl k b f hnd hk
  refine ⟨by simpa using sweepLoop_calls o now bl bl dr [], ?_, ?_, ?_⟩
  · intro hperm
    simp [sweepCallOf, shouldSweep, hperm]
  · intro hs
    constructor
    · intro ho
      have hrm : removedB o now (k, b) = true := by simp [removedB, hs, ho]
      constructor
      · rw [hbl]
        apply alookup_filter_of_false
        intro v
        have := hany (removedB o now)
        simp only at this
        simp [this, hrm]
      · rw [hdr]
        apply alookup_filter_of_false
        intro v
        have := hany (removedB o now)
        simp only at this
        simp [this, hrm]
    · intro ho
      have hrm : removedB o now (k, b) = false := by simp [removedB, hs, ho]
      rw [hbl]
      rw [alookup_filter_of_true]
      · exact hk
      · intro v
        have := hany (removedB o now)
        simp only at this
        simp [this, hrm]
  · intro hs
    have hrm : removedB o now (k, b) = false := by simp [removedB, hs]
    rw [hbl]
    rw [alookup_filter_of_true]
    · exact hk
    · intro v
      have := hany (removedB o now)
      simp only at this
      simp [this, hrm]

/-- Witness for C2 at a concrete expired record with a succeeding rule
store: the hypotheses hold and the record and window are removed. -/
theorem c2_sweep_correct_witness :
    (([("100:a", (⟨1, some 500, "u", false⟩ : BlockRecord))].map Prod.fst).Nodup ∧
      alookup [("100:a", (⟨1, some 500, "u", false⟩ : BlockRecord))] "100:a" =
        some ⟨1, some 500, "u", false⟩ ∧
      shouldSweep ⟨1, some 500, "u", false⟩ 1000 = true) ∧
    alookup (sweep (fun _ _ => true) 1000
      [("100:a", ⟨1, some 500, "u", false⟩)] [("100:a", [1, 2])]).1 "100:a" = none := by
  refine ⟨⟨by decide, by decide, by decide⟩, ?_⟩
  exact (((c2_sweep_correct (fun _ _ => true) 1000
    [("100:a", ⟨1, some 500, "u", false⟩)] [("100:a", [1, 2])] "100:a"
    ⟨1, some 500, "u", false⟩ (by decide) (by decide)).2.2.1 (by decide)).1 (by decide)).1

/-! ## Claim C1: events for an already-blocked key -/

/-- C1 (amended): for every event whose TrackKey holds a permanent
BlockRecord, processing the event is a complete no-op: no rule-store call
is issued, no DROP timestamp is appended, and the state is unchanged. -/
theorem c1_permanent_block_inert (ctx : Ctx) (counts : String → Nat) (st : RunSt)
    (ev : LogEvent) (hperm : isPermBlocked st.blocked (evKey ev) = true) :
    processEvent ctx counts st ev = st := by
  simp [processEvent, hperm]

/-- Witness for C1 at a concrete permanently blocked key. -/
theorem c1_permanent_block_inert_witness :
    isPermBlocked stPermBlocked.blocked (evKey evDropA) = true ∧
    processEvent ctxRuGeo (fun _ => 0) stPermBlocked evDropA = stPermBlocked :=
  ⟨by decide, c1_permanent_block_inert ctxRuGeo (fun _ => 0) stPermBlocked evDropA (by decide)⟩

/-- Counterexample to C1 as stated: the key of `evDropA` holds an active,
unexpired non-permanent BlockRecord (expiration one second past the epoch,
clock at zero), yet processing a DROP event for it does append the
timestamp to the DropWindow of the key, and, when the source country is
disallowed, does issue a fresh rule-store create call. -/
theorem c1_counterexample :
    (alookup stTempBlocked.blocked (evKey evDropA) =
        some ⟨7, some 1000000, "u", false⟩ ∧
      ctxNoGeo.now < 1000000 ∧ ctxRuGeo.now < 1000000 ∧ evDropA.action = "DROP:") ∧
    alookup (processEvent ctxNoGeo (fun _ => 0) stTempBlocked evDropA).drops
      (evKey evDropA) = some [5] ∧
    (processEvent ctxRuGeo (fun _ => 0) stTempBlocked evDropA).calls.length = 1 := by
  refine ⟨⟨by decide, by decide, by decide, by decide⟩, by decide, by decide⟩

/-! ## Claim C5: the drop-rate window and detector -/

/-- C5: only DROP verdicts reach a DropWindow (an ACCEPT event leaves every
window unchanged); a window append retains at most five timestamps,
appending plainly below capacity and evicting the oldest at capacity; and
on the drop path the detector issues a create call exactly when the
post-append window holds exactly five timestamps whose span is at most
five minutes. -/
theorem c5_window_detector (ctx : Ctx) (counts : String → Nat) (st : RunSt)
    (ev : LogEvent) (w : List Int) (t : Int) :
    (ev.action = "ACCEPT:" → (processEvent ctx counts st ev).drops = st.drops) ∧
    (pushWindow w t).length ≤ 5 ∧
    (w.length < 5 → pushWindow w t = w ++ [t]) ∧
    (w.length = 5 → pushWindow w t = w.tail ++ [t]) ∧
    (geoDisallowed ctx ev.src_ip = false → ev.action = "DROP:" →
      isPermBlocked st.blocked (evKey ev) = false →
      (processEvent ctx counts st ev).calls = st.calls ++
        (if fireWindow (pushWindow ((alookup st.drops (evKey ev)).getD []) ev.timestamp)
         then [ApiCall.create ev.vmid
            (mkRule ev.src_ip (tempComment ctx.now (ctx.uuidGen st.createCount)))]
         else [])) := by
  refine ⟨?_, ?_, ?_, ?_, ?_⟩
  · intro hacc
    have hact : (ev.action == "DROP:") = false := by simp [hacc]
    simp only [processEvent, hact, Bool.false_and, Bool.false_eq_true, if_false]
    split
    · split
      · rfl
      · split <;> rfl
    · rfl
  · simp only [pushWindow, List.length_drop]
    omega
  · intro h
    have h0 : (w ++ [t]).length - 5 = 0 := by
      simp only [List.length_append, List.length_singleton]
      omega
    simp only [pushWindow, h0, List.drop_zero]
  · intro h
    cases w with
    | nil => simp at h
    | cons a w2 =>
      have hw2 : w2.length = 4 := by simpa using h
      simp [pushWindow, hw2]
  · intro hgeo hact hperm
    have hact2 : (ev.action == "DROP:") = true := by simp [hact]
    simp only [processEvent, hgeo, Bool.false_eq_true, if_false, hact2, hperm,
      Bool.not_false, Bool.and_self, if_true]
    split
    · split <;> simp
    · simp

/-- Witness for C5: an ACCEPT event leaves the windows alone, and a fifth
DROP within five minutes on a window of four issues the create call. -/
theorem c5_window_detector_witness :
    ((processEvent ctxNoGeo (fun _ => 0) stFourDrops evAcceptA).drops =
      stFourDrops.drops) ∧
    (geoDisallowed ctxNoGeo evDropB.src_ip = false ∧
      isPermBlocked stFourDrops.blocked (evKey evDropB) = false) ∧
    (processEvent ctxNoGeo (fun _ => 0) stFourDrops evDropB).calls =
      stFourDrops.calls ++
        (if fireWindow (pushWindow ((alookup stFourDrops.drops (evKey evDropB)).getD [])
            evDropB.timestamp)
         then [ApiCall.create evDropB.vmid (mkRule evDropB.src_ip
            (tempComment ctxNoGeo.now (ctxNoGeo.uuidGen stFourDrops.createCount)))]
         else []) := by
  refine ⟨?_, ⟨by decide, by decide⟩, ?_⟩
  · exact (c5_window_detector ctxNoGeo (fun _ => 0) stFourDrops evAcceptA [] 0).1 rfl
  · exact (c5_window_detector ctxNoGeo (fun _ => 0) stFourDrops evDropB [] 0).2.2.2.2
      (by decide) rfl (by decide)

/-! ## Claim C6: the geo-block transition -/

/-- C6: an event whose source resolves to a truthy country code outside the
allow-set, for a key without a permanent block, issues exactly one create
call; on success, and only then, a permanent BlockRecord with no expiration
is stored for the key and an audit entry is appended; on failure nothing
but the call log and the attempt counter changes, so the key stays
unblocked and the ledger untouched for this event. -/
theorem c6_geo_block (ctx : Ctx) (counts : String → Nat) (st : RunSt) (ev : LogEvent)
    (c : String) (hc : get_country ctx.geo ev.src_ip = some c)
    (hc0 : (c == "") = false) (hca : ctx.allowed.contains c = false)
    (hperm : isPermBlocked st.blocked (evKey ev) = false) :
    ((processEvent ctx counts st ev).calls = st.calls ++
      [ApiCall.create ev.vmid
        (mkRule ev.src_ip (geoComment ctx.now (ctx.uuidGen st.createCount)))]) ∧
    (∀ ridx, ctx.createOracle st.createCount = some ridx →
      processEvent ctx counts st ev = { st with
        blocked := alinsert st.blocked (evKey ev)
          ⟨ridx, none, ctx.uuidGen st.createCount, true⟩
        tracking := st.tracking ++ [⟨ctx.now, ev.vmid, ev.src_ip,
          ctx.uuidGen st.createCount, ridx, none, "disallowed country", none⟩]
        calls := st.calls ++ [ApiCall.create ev.vmid
          (mkRule ev.src_ip (geoComment ctx.now (ctx.uuidGen st.createCount)))]
        createCount := st.createCount + 1 }) ∧
    (ctx.createOracle st.createCount = none →
      processEvent ctx counts st ev = { st with
        calls := st.calls ++ [ApiCall.create ev.vmid
          (mkRule ev.src_ip (geoComment ctx.now (ctx.uuidGen st.createCount)))]
        createCount := st.createCount + 1 }) := by
  have hgeo : geoDisallowed ctx ev.src_ip = true := by
    unfold geoDisallowed
    rw [hc]
    show (!(c == "") && !ctx.allowed.contains c) = true
    rw [hc0, hca]
    rfl
  refine ⟨?_, ?_, ?_⟩
  · simp only [processEvent, hgeo, if_true, hperm, Bool.false_eq_true, if_false]
    split <;> rfl
  · intro ridx ho
    simp only [processEvent, hgeo, if_true, hperm, Bool.false_eq_true, if_false, ho]
  · intro ho
    simp only [processEvent, hgeo, if_true, hperm, Bool.false_eq_true, if_false, ho]

/-- Witness for C6: a concrete disallowed-country event against an empty
state with a succeeding rule store. -/
theorem c6_geo_block_witness :
    (get_country ctxRuGeo.geo evDropA.src_ip = some "RU" ∧
      (("RU" : String) == "") = false ∧
      ctxRuGeo.allowed.contains "RU" = false ∧
      isPermBlocked stEmpty.blocked (evKey evDropA) = false ∧
      ctxRuGeo.createOracle stEmpty.createCount = some 100) ∧
    processEvent ctxRuGeo (fun _ => 0) stEmpty evDropA = { stEmpty with
      blocked := alinsert stEmpty.blocked (evKey evDropA)
        ⟨100, none, ctxRuGeo.uuidGen stEmpty.createCount, true⟩
      tracking := stEmpty.tracking ++ [⟨ctxRuGeo.now, evDropA.vmid, evDropA.src_ip,
        ctxRuGeo.uuidGen stEmpty.createCount, 100, none, "disallowed country", none⟩]
      calls := stEmpty.calls ++ [ApiCall.create evDropA.vmid
        (mkRule evDropA.src_ip (geoComment ctxRuGeo.now (ctxRuGeo.uuidGen stEmpty.createCount)))]
      createCount := stEmpty.createCount + 1 } := by
  refine ⟨⟨by decide, by decide, by decide, by decide, by decide⟩, ?_⟩
  exact (c6_geo_block ctxRuGeo (fun _ => 0) stEmpty evDropA "RU" (by decide) (by decide)
    (by decide) (by decide)).2.1 100 (by decide)

/-! ## Claim C7: unknown geo verdict -/

/-- C7: the evaluator yields unknown when the geo database is absent and
when the reader fails to resolve the address; and an event whose lookup is
unknown is processed exactly as if no geo database existed at all, its only
possible rule-store call being the drop-path temporary-block create, never
a geo-block create. -/
theorem c7_unknown_geo (ctx : Ctx) (counts : String → Nat) (st : RunSt)
    (ev : LogEvent) (f : String → Option String) (ip : String) :
    get_country none ip = none ∧
    (f ip = none → get_country (some f) ip = none) ∧
    (get_country ctx.geo ev.src_ip = none →
      processEvent ctx counts st ev =
        processEvent { ctx with geo := none } counts st ev) ∧
    (get_country ctx.geo ev.src_ip = none →
      (processEvent ctx counts st ev).calls = st.calls ∨
      (processEvent ctx counts st ev).calls = st.calls ++
        [ApiCall.create ev.vmid
          (mkRule ev.src_ip (tempComment ctx.now (ctx.uuidGen st.createCount)))]) := by
  refine ⟨rfl, ?_, ?_, ?_⟩
  · intro h
    simp [get_country, h]
  · intro h
    have hg1 : geoDisallowed ctx ev.src_ip = false := by simp [geoDisallowed, h]
    have hg2 : geoDisallowed { ctx with geo := none } ev.src_ip = false := by
      simp [geoDisallowed, get_country]
    simp only [processEvent, hg1, hg2, Bool.false_eq_true, if_false]
  · intro h
    have hg1 : geoDisallowed ctx ev.src_ip = false := by simp [geoDisallowed, h]
    simp only [processEvent, hg1, Bool.false_eq_true, if_false]
    split
    · split
      · split
        · right
          rfl
        · right
          rfl
      · left
        rfl
    · left
      rfl

/-- Witness for C7: the address of `evDropA` is unresolved under a reader
that knows no addresses, and the event is processed as with no database. -/
theorem c7_unknown_geo_witness :
    ((fun _ : String => (none : Option String)) evDropA.src_ip = none ∧
      get_country (some (fun _ => none)) evDropA.src_ip = none) ∧
    processEvent ⟨[], some (fun _ => none), ctxNoGeo.createOracle, ctxNoGeo.delOracle,
        ctxNoGeo.uuidGen, ctxNoGeo.now⟩ (fun _ => 0) stEmpty evDropA =
      processEvent ⟨[], none, ctxNoGeo.createOracle, ctxNoGeo.delOracle,
        ctxNoGeo.uuidGen, ctxNoGeo.now⟩ (fun _ => 0) stEmpty evDropA := by
  refine ⟨⟨rfl, rfl⟩, ?_⟩
  exact (c7_unknown_geo ⟨[], some (fun _ => none), ctxNoGeo.createOracle, ctxNoGeo.delOracle,
    ctxNoGeo.uuidGen, ctxNoGeo.now⟩ (fun _ => 0) stEmpty evDropA (fun _ => none)
    evDropA.src_ip).2.2.1 rfl

/-! ## Claim C4: the parser contract -/

/-- The flat validity conjunction, in propositional form. -/
theorem lineValid_iff (line : String) :
    lineValid line = true ↔
      (10 ≤ (wsTokens line.data).length ∧
        String.mk ((wsTokens line.data).getD 5 []) = "policy" ∧
        isDigits ((wsTokens line.data).getD 0 []) = true ∧
        (String.mk ((wsTokens line.data).getD 6 []) = "DROP:" ∨
          String.mk ((wsTokens line.data).getD 6 []) = "ACCEPT:") ∧
        (parseTimestamp ((wsTokens line.data).getD 3 [])
          ((wsTokens line.data).getD 4 [])).isSome = true ∧
        ∃ src, findSrc ((wsTokens line.data).drop 7) = some src ∧ ipValid src = true) := by
  cases hfs : findSrc ((wsTokens line.data).drop 7) with
  | none => simp [lineValid, hfs, Bool.and_eq_true, decide_eq_true_eq]
  | some src =>
    simp only [lineValid, hfs, Bool.and_eq_true, decide_eq_true_eq, Bool.or_eq_true,
      beq_iff_eq, Option.map_some', Option.getD_some, Option.some.injEq]
    constructor
    · rintro ⟨⟨⟨⟨⟨ha, hb⟩, hc⟩, hd⟩, he⟩, hf⟩
      exact ⟨ha, hb, hc, hd, he, src, rfl, hf⟩
    · rintro ⟨ha, hb, hc, hd, he, src2, hsrc2, hf⟩
      obtain rfl : src = src2 := hsrc2
      exact ⟨⟨⟨⟨⟨ha, hb⟩, hc⟩, hd⟩, he⟩, hf⟩

/-- C4: the parser yields an event exactly when the line satisfies the
whole field contract, and the event it yields carries exactly the fields
encoded in the line: the numeric vmid field, the stripped source address
of the first SRC= trailing field, the UTC-converted timestamp of fields
four and five, and the verdict token of field seven. The embedding is a
total function, so no input raises. -/
theorem c4_parser_contract (line : String) :
    ((parse_log_line line).isSome = true ↔ lineValid line = true) ∧
    (∀ ev, parse_log_line line = some ev →
      ev.vmid = String.mk ((wsTokens line.data).getD 0 []) ∧
      (∃ src, findSrc ((wsTokens line.data).drop 7) = some src ∧
        ev.src_ip = String.mk src ∧ ipValid src = true) ∧
      parseTimestamp ((wsTokens line.data).getD 3 [])
        ((wsTokens line.data).getD 4 []) = some ev.timestamp ∧
      ev.action = String.mk ((wsTokens line.data).getD 6 [])) := by
  rw [lineValid_iff]
  simp only [parse_log_line]
  by_cases h1 : (wsTokens line.data).length < 10
  · rw [if_pos h1]
    refine ⟨⟨fun h => by simp at h, fun h => absurd h.1 (by omega)⟩, fun ev h => by simp at h⟩
  · rw [if_neg h1]
    have h1' : 10 ≤ (wsTokens line.data).length := Nat.le_of_not_lt h1
    by_cases h2 : String.mk ((wsTokens line.data).getD 5 []) ≠ "policy"
    · rw [if_pos h2]
      refine ⟨⟨fun h => by simp at h, fun h => absurd h.2.1 h2⟩, fun ev h => by simp at h⟩
    · rw [if_neg h2]
      push_neg at h2
      by_cases h3 : isDigits ((wsTokens line.data).getD 0 []) = true
      · rw [if_neg (by intro hc; rw [h3] at hc; simp at hc)]
        by_cases h4 : String.mk ((wsTokens line.data).getD 6 []) = "DROP:" ∨
            String.mk ((wsTokens line.data).getD 6 []) = "ACCEPT:"
        · rw [if_neg (by tauto)]
          cases hts : parseTimestamp ((wsTokens line.data).getD 3 [])
              ((wsTokens line.data).getD 4 []) with
          | none =>
            refine ⟨⟨fun h => by simp at h, fun h => by simpa using h.2.2.2.2.1⟩,
              fun ev h => by simp at h⟩
          | some ts =>
            dsimp only
            cases hfs : findSrc ((wsTokens line.data).drop 7) with
            | none =>
              refine ⟨⟨fun h => by simp at h, fun h => ?_⟩, fun ev h => by simp at h⟩
              obtain ⟨src, hsrc, -⟩ := h.2.2.2.2.2
              exact absurd hsrc (by simp)
            | some src =>
              dsimp only
              by_cases hip : ipValid src = true
              · rw [if_pos hip]
                refine ⟨⟨fun _ => ⟨h1', h2, h3, h4, by simp, src, rfl, hip⟩,
                  fun _ => rfl⟩, fun ev h => ?_⟩
                obtain rfl : (⟨String.mk ((wsTokens line.data).getD 0 []),
                    String.mk src, ts, String.mk ((wsTokens line.data).getD 6 [])⟩ :
                      LogEvent) = ev := (Option.some.injEq _ _).mp h
                exact ⟨rfl, ⟨src, rfl, rfl, hip⟩, rfl, rfl⟩
              · rw [if_neg hip]
                refine ⟨⟨fun h => by simp at h, fun h => ?_⟩, fun ev h => by simp at h⟩
                obtain ⟨src2, hsrc2, hip2⟩ := h.2.2.2.2.2
                obtain rfl : src = src2 := by simpa using hsrc2
                exact absurd hip2 hip
        · rw [if_pos (by tauto)]
          refine ⟨⟨fun h => by simp at h, fun h => absurd h.2.2.2.1 h4⟩,
            fun ev h => by simp at h⟩
      · have h3f : isDigits ((wsTokens line.data).getD 0 []) = false := by
          revert h3
          cases isDigits ((wsTokens line.data).getD 0 []) <;> simp
        rw [if_pos (by rw [h3f]; rfl)]
        refine ⟨⟨fun h => by simp at h, fun h => absurd h.2.2.1 h3⟩, fun ev h => by simp at h⟩

/-- Witness for C4 at the DROP test vector of the repository test-suite:
the line is valid, so the parser yields an event. -/
theorem c4_parser_contract_witness :
    lineValid testDropLine = true ∧ (parse_log_line testDropLine).isSome = true :=
  ⟨by decide, (c4_parser_contract testDropLine).1.mpr (by decide)⟩

/-! ## Claim C3: the escalation policy -/

/-- C3 (amended): when the drop-rate detector fires and the rule store
accepts the create, the stored BlockRecord and appended audit entry carry
the tier computed from the per-source count the run was given: at least
seven prior entries give a permanent record with no expiration, at least
five give seven days, fewer give one hour; the entry records exactly that
count. In main this count function is the jq group-by over the tracking
file as read at the start of the run, so decisions appended earlier in the
same run are not reflected in it. -/
theorem c3_escalation_tiers (ctx : Ctx) (counts : String → Nat) (st : RunSt)
    (ev : LogEvent) (ridx : Nat)
    (hgeo : geoDisallowed ctx ev.src_ip = false)
    (hact : ev.action = "DROP:")
    (hperm : isPermBlocked st.blocked (evKey ev) = false)
    (hfire : fireWindow (pushWindow ((alookup st.drops (evKey ev)).getD [])
      ev.timestamp) = true)
    (ho : ctx.createOracle st.createCount = some ridx) :
    alookup (processEvent ctx counts st ev).blocked (evKey ev) =
      some ⟨ridx, tierExpiration (counts ev.src_ip) ctx.now,
        ctx.uuidGen st.createCount,
        (tierExpiration (counts ev.src_ip) ctx.now).isNone⟩ ∧
    (processEvent ctx counts st ev).tracking = st.tracking ++
      [⟨ctx.now, ev.vmid, ev.src_ip, ctx.uuidGen st.createCount, ridx,
        tierExpiration (counts ev.src_ip) ctx.now, "multiple drops",
        some (counts ev.src_ip)⟩] ∧
    (7 ≤ counts ev.src_ip → tierExpiration (counts ev.src_ip) ctx.now = none) ∧
    (5 ≤ counts ev.src_ip → counts ev.src_ip < 7 →
      tierExpiration (counts ev.src_ip) ctx.now = some (ctx.now + 604800000000)) ∧
    (counts ev.src_ip < 5 →
      tierExpiration (counts ev.src_ip) ctx.now = some (ctx.now + 3600000000)) := by
  have hact2 : (ev.action == "DROP:") = true := by simp [hact]
  simp only [processEvent, hgeo, Bool.false_eq_true, if_false, hact2, hperm,
    Bool.not_false, Bool.and_self, if_true, hfire, ho]
  refine ⟨alookup_alinsert_self _ _ _, by trivial, ?_, ?_, ?_⟩
  · intro h7
    rw [tierExpiration, if_pos h7]
  · intro h5 h7
    rw [tierExpiration, if_neg (by omega), if_pos h5]
  · intro h5
    rw [tierExpiration, if_neg (by omega), if_neg (by omega)]

/-- Witness for C3 at a firing fifth drop with six prior entries for the
source: a seven-day non-permanent block is stored. -/
theorem c3_escalation_tiers_witness :
    (geoDisallowed ctxNoGeo evDropB.src_ip = false ∧
      evDropB.action = "DROP:" ∧
      isPermBlocked stFourDrops.blocked (evKey evDropB) = false ∧
      fireWindow (pushWindow ((alookup stFourDrops.drops (evKey evDropB)).getD [])
        evDropB.timestamp) = true ∧
      ctxNoGeo.createOracle stFourDrops.createCount = some 100) ∧
    alookup (processEvent ctxNoGeo (fun _ => 6) stFourDrops evDropB).blocked
      (evKey evDropB) = some ⟨100, tierExpiration 6 ctxNoGeo.now, "u",
        (tierExpiration 6 ctxNoGeo.now).isNone⟩ := by
  refine ⟨⟨by decide, rfl, by decide, by decide, rfl⟩, ?_⟩
  exact (c3_escalation_tiers ctxNoGeo (fun _ => 6) stFourDrops evDropB 100 (by decide)
    rfl (by decide) (by decide) rfl).1

/-- Counterexample to C3 as stated: in the run `c3Out` the drop-rate
detector fires twice for source 9.9.9.9 in one run, over a start-of-run
ledger of six entries. At the second decision the audit history holds
seven prior entries for the source, so the stated policy demands a
permanent block, yet the recorded entry used the stale count six and the
stored BlockRecord for the second key is a non-permanent seven-day
block. -/
theorem c3_counterexample :
    c3Out.tracking.length = 8 ∧
    ledgerCount (c3Out.tracking.take 7) "9.9.9.9" = 7 ∧
    (c3Out.tracking.getD 7 ⟨0, "", "", "", 0, none, "", none⟩).previous_blocks =
      some 6 ∧
    alookup c3Out.snapshot.blocked "200:9.9.9.9" =
      some ⟨101, some 604800000000, "u", false⟩ := by
  refine ⟨by decide, by decide, by decide, by decide⟩

/-! ## Claim C8: loading state and ledger -/

/-- C8 (amended): an absent state file yields the default state and an
absent or unparsable tracking file yields the empty ledger; but a state
file that is present and fails to parse raises out of the load instead of
defaulting, aborting the run. -/
theorem c8_load_defaults :
    loadState none = Except.ok (loadSnapshot defaultSnapshot) ∧
    (∀ raw, loadState (some (some raw)) = Except.ok (loadSnapshot raw)) ∧
    loadTracking none = [] ∧
    loadTracking (some none) = [] ∧
    (∀ l, loadTracking (some (some l)) = l) ∧
    loadState (some none) = Except.error () :=
  ⟨rfl, fun _ => rfl, rfl, rfl, fun _ => rfl, rfl⟩

/-- Counterexample to C8 as stated: a present but corrupt state input
makes the load raise rather than return the default state. -/
theorem c8_counterexample : loadState (some none) = Except.error () := rfl

/-! ## Claim C9: the expiration-permanent invariant -/

theorem blockedOK_processEvent (ctx : Ctx) (counts : String → Nat) (st : RunSt)
    (ev : LogEvent) (h : BlockedOK st.blocked) :
    BlockedOK (processEvent ctx counts st ev).blocked := by
  simp only [processEvent]
  split
  · split
    · exact h
    · split
      · intro q hq
        rcases mem_alinsert _ _ _ q hq with rfl | hql
        · simp
        · exact h q hql
      · exact h
  · split
    · split
      · split
        · intro q hq
          rcases mem_alinsert _ _ _ q hq with rfl | hql
          · cases hexp : tierExpiration (counts ev.src_ip) ctx.now <;> simp [hexp]
          · exact h q hql
        · exact h
      · exact h
    · exact h

theorem blockedOK_runOnLines (ctx : Ctx) (counts : String → Nat) (st : RunSt)
    (lines : List String) (h : BlockedOK st.blocked) :
    BlockedOK (runOnLines ctx counts st lines).blocked := by
  induction lines generalizing st with
  | nil => exact h
  | cons l rest ih =>
    show BlockedOK (runOnLines ctx counts
      (match parse_log_line l with
       | some ev => processEvent ctx counts st ev
       | none => st) rest).blocked
    cases parse_log_line l with
    | none => exact ih st h
    | some ev => exact ih _ (blockedOK_processEvent ctx counts st ev h)

/-- C9 (amended): every BlockRecord created during a run satisfies the
invariant that the expiration is null exactly for a permanent record, a
run started from a snapshot satisfying it ends in a snapshot satisfying
it, and the save-and-reload round trip of a record is the identity. The
invariant is not restored by the load when it does not already hold on
disk; see the counterexample. -/
theorem c9_expiration_iff_permanent (ctx : Ctx) (raw : RawSnapshot)
    (t0 : List AuditEntry) (ino : Nat) (file : List String)
    (h : BlockedOK (loadSnapshot raw).blocked) :
    BlockedOK (run ctx raw t0 ino file).snapshot.blocked ∧
    (∀ b : BlockRecord, loadRecord (saveRecord b) = b) := by
  refine ⟨?_, fun b => rfl⟩
  intro q hq
  simp only [run] at hq
  unfold sweep at hq
  rw [sweepLoop_blocked] at hq
  have hq2 := (List.mem_filter.mp hq).1
  exact blockedOK_runOnLines ctx (ledgerCount t0)
    ⟨(loadSnapshot raw).drops, (loadSnapshot raw).blocked, t0, [], 0⟩ _ h q hq2

/-- Witness for C9: a run over an empty file from a well-formed snapshot
holding one permanent record. -/
theorem c9_expiration_iff_permanent_witness :
    BlockedOK (loadSnapshot c9RawOK).blocked ∧
    BlockedOK (run ctxNoGeo c9RawOK [] 7 []).snapshot.blocked :=
  ⟨by unfold BlockedOK; decide,
    (c9_expiration_iff_permanent ctxNoGeo c9RawOK [] 7 []
      (by unfold BlockedOK; decide)).1⟩

/-- Counterexample to C9 as stated: loading a snapshot whose record has a
null expiration but no permanent flag defaults the flag to false, so the
warden holds a state violating the equivalence. -/
theorem c9_counterexample :
    alookup (loadSnapshot c9Raw).blocked "100:1.2.3.4" =
      some ⟨1, none, "u", false⟩ ∧
    ¬ BlockedOK (loadSnapshot c9Raw).blocked := by
  refine ⟨by decide, ?_⟩
  intro h
  have := h ("100:1.2.3.4", ⟨1, none, "u", false⟩) (by decide)
  simpa using this.mp rfl

/-! ## Claim C10: idempotence of an immediate second run -/

theorem pushWindow_length_le (w : List Int) (t : Int) : (pushWindow w t).length ≤ 5 := by
  simp only [pushWindow, List.length_drop]
  omega

theorem loadWindow_length_le (w : List Int) : (loadWindow w).length ≤ 5 := by
  simp only [loadWindow, List.length_drop]
  omega

theorem loadWindow_eq_of_le (w : List Int) (h : w.length ≤ 5) : loadWindow w = w := by
  have h0 : w.length - 5 = 0 := by omega
  simp only [loadWindow, h0, List.drop_zero]

theorem dropsBounded_loadSnapshot (raw : RawSnapshot) :
    DropsBounded (loadSnapshot raw).drops := by
  intro p hp
  simp only [loadSnapshot, List.mem_map] at hp
  obtain ⟨q, -, rfl⟩ := hp
  exact loadWindow_length_le q.2

theorem dropsBounded_processEvent (ctx : Ctx) (counts : String → Nat) (st : RunSt)
    (ev : LogEvent) (h : DropsBounded st.drops) :
    DropsBounded (processEvent ctx counts st ev).drops := by
  simp only [processEvent]
  split
  · split
    · exact h
    · split
      · exact h
      · exact h
  · split
    · have hins : DropsBounded (alinsert st.drops (evKey ev)
          (pushWindow ((alookup st.drops (evKey ev)).getD []) ev.timestamp)) := by
        intro q hq
        rcases mem_alinsert _ _ _ q hq with rfl | hql
        · exact pushWindow_length_le _ _
        · exact h q hql
      split
      · split
        · exact hins
        · exact hins
      · exact hins
    · exact h

theorem dropsBounded_runOnLines (ctx : Ctx) (counts : String → Nat) (st : RunSt)
    (lines : List String) (h : DropsBounded st.drops) :
    DropsBounded (runOnLines ctx counts st lines).drops := by
  induction lines generalizing st with
  | nil => exact h
  | cons l rest ih =>
    show DropsBounded (runOnLines ctx counts
      (match parse_log_line l with
       | some ev => processEvent ctx counts st ev
       | none => st) rest).drops
    cases parse_log_line l with
    | none => exact ih st h
    | some ev => exact ih _ (dropsBounded_processEvent ctx counts st ev h)

theorem dropsBounded_run (ctx : Ctx) (raw : RawSnapshot) (t0 : List AuditEntry)
    (ino : Nat) (file : List String) :
    DropsBounded (run ctx raw t0 ino file).snapshot.drops := by
  intro q hq
  simp only [run] at hq
  unfold sweep at hq
  rw [sweepLoop_drops] at hq
  have hq2 := (List.mem_filter.mp hq).1
  exact dropsBounded_runOnLines ctx (ledgerCount t0)
    ⟨(loadSnapshot raw).drops, (loadSnapshot raw).blocked, t0, [], 0⟩ _
    (dropsBounded_loadSnapshot raw) q hq2

theorem load_save_snapshot (s : Snapshot) (h : DropsBounded s.drops) :
    loadSnapshot (saveSnapshot s) = s := by
  obtain ⟨i, pos, d, b⟩ := s
  simp only [loadSnapshot, saveSnapshot, List.map_map]
  congr 1
  · rw [show (d.map fun p => (p.1, loadWindow p.2)) = d.map id by
      apply List.map_congr_left
      intro q hq
      simp [loadWindow_eq_of_le q.2 (h q hq)]]
    exact List.map_id d
  · rw [show (b.map ((fun p => (p.1, loadRecord p.2)) ∘ fun p => (p.1, saveRecord p.2))) =
        b.map id by
      apply List.map_congr_left
      intro q _
      rfl]
    exact List.map_id b

theorem run_drop_position (ctx : Ctx) (raw : RawSnapshot) (t0 : List AuditEntry)
    (ino : Nat) (file : List String) :
    file.drop (run ctx raw t0 ino file).snapshot.position = [] := by
  simp only [run]
  by_cases hl : (file.drop (if (loadSnapshot raw).inode = some ino
      then (loadSnapshot raw).position else 0)).isEmpty = true
  · rw [if_pos hl]
    exact List.isEmpty_iff.mp hl
  · rw [if_neg hl]
    exact List.drop_length file

theorem run_inode (ctx : Ctx) (raw : RawSnapshot) (t0 : List AuditEntry)
    (ino : Nat) (file : List String) :
    (run ctx raw t0 ino file).snapshot.inode = some ino := rfl

theorem sweep_noop (o : String → Nat → Bool) (now : Int)
    (bl : List (String × BlockRecord)) (dr : List (String × List Int))
    (h : ∀ p ∈ bl, shouldSweep p.2 now = false) :
    sweep o now bl dr = (bl, dr, []) :=
  sweepLoop_noop o now bl (bl, dr, []) h

/-- C10 (amended): when the first run ends with no expired non-permanent
block left behind (every attempted delete of its sweep succeeded),
immediately re-running on the same bytes and the same clock reading makes
no rule-store call at all and leaves the persisted snapshot and ledger
unchanged, the cursor already sitting at end-of-file. Without that
proviso the second run retries the failed delete; see the
counterexample. -/
theorem c10_second_run_idle (ctx : Ctx) (raw : RawSnapshot) (t0 : List AuditEntry)
    (ino : Nat) (file : List String)
    (h : ∀ p ∈ (run ctx raw t0 ino file).snapshot.blocked,
      shouldSweep p.2 ctx.now = false) :
    run ctx (saveSnapshot (run ctx raw t0 ino file).snapshot)
        (run ctx raw t0 ino file).tracking ino file =
      ⟨(run ctx raw t0 ino file).snapshot, (run ctx raw t0 ino file).tracking, []⟩ := by
  set out1 := run ctx raw t0 ino file with hout1
  have hsnap : loadSnapshot (saveSnapshot out1.snapshot) = out1.snapshot :=
    load_save_snapshot _ (dropsBounded_run ctx raw t0 ino file)
  have hinode : out1.snapshot.inode = some ino := run_inode ctx raw t0 ino file
  have hdrop : file.drop out1.snapshot.position = [] :=
    run_drop_position ctx raw t0 ino file
  show run ctx (saveSnapshot out1.snapshot) out1.tracking ino file = _
  simp only [run, hsnap, hinode, if_pos rfl, hdrop, List.isEmpty_nil, if_true,
    runOnLines, List.foldl_nil]
  rw [sweep_noop ctx.delOracle ctx.now out1.snapshot.blocked out1.snapshot.drops h]
  show (⟨⟨some ino, out1.snapshot.position, out1.snapshot.drops,
    out1.snapshot.blocked⟩, out1.tracking, [] ++ []⟩ : RunOut) = _
  rw [← hinode]
  rfl

/-- Witness for C10: a first run over an empty file from the default state
leaves nothing to sweep, and the second run is idle. -/
theorem c10_second_run_idle_witness :
    (∀ p ∈ (run ctxNoGeo defaultSnapshot [] 7 []).snapshot.blocked,
      shouldSweep p.2 ctxNoGeo.now = false) ∧
    run ctxNoGeo (saveSnapshot (run ctxNoGeo defaultSnapshot [] 7 []).snapshot)
        (run ctxNoGeo defaultSnapshot [] 7 []).tracking 7 [] =
      ⟨(run ctxNoGeo defaultSnapshot [] 7 []).snapshot,
        (run ctxNoGeo defaultSnapshot [] 7 []).tracking, []⟩ :=
  ⟨by decide, c10_second_run_idle ctxNoGeo defaultSnapshot [] 7 [] (by decide)⟩

/-- Counterexample to C10 as stated: with an expired temporary block whose
delete fails, the first run issues a delete that fails, and the second run
over the same bytes issues the delete again, so the second run does make a
rule-store call. -/
theorem c10_counterexample :
    c10Out1.calls = [ApiCall.delete "100" 1] ∧
    c10Out2.calls = [ApiCall.delete "100" 1] ∧
    c10Out2.snapshot = c10Out1.snapshot := by
  refine ⟨by decide, by decide, by decide⟩
